import Mathlib

set_option maxRecDepth 8000

/-!
Verification of the Lingo configuration-aggregation library.

Shallow embedding of the core pipeline of the `lingo` repository:
the common value tree (figment `Value`), the string type-coercion used by the
environment and CLI providers, env/CLI nested-key insertion, the file
provider's depth-bounded converter and INI section mapping, path resolution
for explicitly specified config files, and the merge engine.

Modelling conventions:
- Rust `i64`/`u64` are `Int`/`Nat` with explicit range checks against
  `2^63` / `2^64` bounds, mirroring `str::parse`.
- `f64` payloads are modelled exactly-rationally (`Rat`) plus infinity/NaN
  markers; IEEE rounding is not modelled, since no verified property depends
  on a float's rounded value, only on whether a float parse succeeds.
- figment's `Map` (a `BTreeMap`) is modelled as an association list with
  replace-or-append insertion; figment `Tag`s (always `Tag::Default` in this
  code base) are dropped.
- `PathBuf` is modelled as a component list; `Path::extension` is derived
  from the last component as in the Rust standard library.
-/

namespace Lingo

/-- Model of a parsed `f64` payload: an exact rational, a signed infinity, or
NaN.  Mirrors the value classes `str::parse::<f64>` can produce. -/
inductive FloatVal where
  | finite (q : Rat)
  | infinite (neg : Bool)
  | nan
deriving DecidableEq, Repr

/-- Embedding of `figment::value::Num` (only the variants produced by this
code base: `I64`, `U64`, `F64`). -/
inductive Num where
  | i64 (i : Int)
  | u64 (n : Nat)
  | f64 (f : FloatVal)
deriving DecidableEq, Repr

/-- Embedding of `figment::value::Value` as produced by the Lingo providers.
`dict` is an association list standing for figment's `Map<String, Value>`. -/
inductive Value where
  | string (s : String)
  | bool (b : Bool)
  | num (n : Num)
  | array (elems : List Value)
  | dict (entries : List (String × Value))
deriving Repr

mutual

/-- Decidable equality for `Value` (deriving does not handle the nesting). -/
def valueDecEq : (a b : Value) → Decidable (a = b)
  | .string s, .string t => decidable_of_iff (s = t) (by simp)
  | .string _, .bool _ => .isFalse (by simp)
  | .string _, .num _ => .isFalse (by simp)
  | .string _, .array _ => .isFalse (by simp)
  | .string _, .dict _ => .isFalse (by simp)
  | .bool _, .string _ => .isFalse (by simp)
  | .bool b, .bool c => decidable_of_iff (b = c) (by simp)
  | .bool _, .num _ => .isFalse (by simp)
  | .bool _, .array _ => .isFalse (by simp)
  | .bool _, .dict _ => .isFalse (by simp)
  | .num _, .string _ => .isFalse (by simp)
  | .num _, .bool _ => .isFalse (by simp)
  | .num n, .num m => decidable_of_iff (n = m) (by simp)
  | .num _, .array _ => .isFalse (by simp)
  | .num _, .dict _ => .isFalse (by simp)
  | .array _, .string _ => .isFalse (by simp)
  | .array _, .bool _ => .isFalse (by simp)
  | .array _, .num _ => .isFalse (by simp)
  | .array xs, .array ys =>
      have : Decidable (xs = ys) := valueListDecEq xs ys
      decidable_of_iff (xs = ys) (by simp)
  | .array _, .dict _ => .isFalse (by simp)
  | .dict _, .string _ => .isFalse (by simp)
  | .dict _, .bool _ => .isFalse (by simp)
  | .dict _, .num _ => .isFalse (by simp)
  | .dict _, .array _ => .isFalse (by simp)
  | .dict xs, .dict ys =>
      have : Decidable (xs = ys) := entryListDecEq xs ys
      decidable_of_iff (xs = ys) (by simp)

/-- Decidable equality for lists of `Value`. -/
def valueListDecEq : (a b : List Value) → Decidable (a = b)
  | [], [] => .isTrue rfl
  | [], _ :: _ => .isFalse (by simp)
  | _ :: _, [] => .isFalse (by simp)
  | x :: xs, y :: ys =>
      have : Decidable (x = y) := valueDecEq x y
      have : Decidable (xs = ys) := valueListDecEq xs ys
      decidable_of_iff (x = y ∧ xs = ys) (by simp)

/-- Decidable equality for `Value` association lists. -/
def entryListDecEq : (a b : List (String × Value)) → Decidable (a = b)
  | [], [] => .isTrue rfl
  | [], _ :: _ => .isFalse (by simp)
  | _ :: _, [] => .isFalse (by simp)
  | x :: xs, y :: ys =>
      have : Decidable (x.2 = y.2) := valueDecEq x.2 y.2
      have : Decidable (xs = ys) := entryListDecEq xs ys
      decidable_of_iff (x.1 = y.1 ∧ x.2 = y.2 ∧ xs = ys) (by
        cases x; cases y; simp [and_assoc])

end

instance : DecidableEq Value := valueDecEq

/-- The association-list map backing `Value.dict`. -/
abbrev VMap := List (String × Value)

/-- Embeds `Map::get` on the association-list model. -/
def mapGet (m : VMap) (k : String) : Option Value :=
  (m.find? (fun e => e.1 == k)).map Prod.snd

/-- Embeds `Map::contains_key` on the association-list model. -/
def mapContains (m : VMap) (k : String) : Bool :=
  m.any (fun e => e.1 == k)

/-- Embeds `Map::insert` on the association-list model: replace the binding in place
if the key is present, otherwise append. -/
def mapInsert (m : VMap) (k : String) (v : Value) : VMap :=
  if mapContains m k then m.map (fun e => if e.1 == k then (k, v) else e)
  else m ++ [(k, v)]

/-- ASCII lower-casing, standing for Rust `str::to_lowercase` (the code base
only lower-cases ASCII configuration tokens). -/
def toLowerStr (s : String) : String := String.mk (s.toList.map Char.toLower)

/-- Digit run to number: `ds` must already be all ASCII digits. -/
def digitsToNat (ds : List Char) : Nat :=
  ds.foldl (fun a c => a * 10 + (c.toNat - '0'.toNat)) 0

/-- A nonempty all-digit run, as required by Rust integer/float grammars. -/
def parseDigits (ds : List Char) : Option Nat :=
  if ds ≠ [] ∧ ds.all Char.isDigit then some (digitsToNat ds) else none

/-- Embedding of `str::parse::<i64>`: optional sign, nonempty digit run,
result within `[-2^63, 2^63 - 1]`. -/
def rustParseI64 (s : String) : Option Int :=
  match s.toList with
  | '+' :: ds =>
      (parseDigits ds).bind fun n =>
        if (n : Int) ≤ 2 ^ 63 - 1 then some (n : Int) else none
  | '-' :: ds =>
      (parseDigits ds).bind fun n =>
        if (n : Int) ≤ 2 ^ 63 then some (-(n : Int)) else none
  | ds =>
      (parseDigits ds).bind fun n =>
        if (n : Int) ≤ 2 ^ 63 - 1 then some (n : Int) else none

/-- Embedding of `str::parse::<u64>`: optional `+` sign, nonempty digit run,
result at most `2^64 - 1`. -/
def rustParseU64 (s : String) : Option Nat :=
  match s.toList with
  | '+' :: ds =>
      (parseDigits ds).bind fun n =>
        if n ≤ 2 ^ 64 - 1 then some n else none
  | ds =>
      (parseDigits ds).bind fun n =>
        if n ≤ 2 ^ 64 - 1 then some n else none

/-- Mantissa of the Rust float grammar: `Digit+ | Digit+ '.' Digit* |
Digit* '.' Digit+`, valued as an exact rational. -/
def parseMantissa (cs : List Char) : Option Rat :=
  match cs.findIdx? (fun c => c == '.') with
  | none => (parseDigits cs).map (fun n => (n : Rat))
  | some i =>
      let intPart := cs.take i
      let fracPart := cs.drop (i + 1)
      if intPart.all Char.isDigit ∧ fracPart.all Char.isDigit ∧
          (intPart ≠ [] ∨ fracPart ≠ []) then
        some ((digitsToNat intPart : Rat) +
          (digitsToNat fracPart : Rat) / (10 : Rat) ^ fracPart.length)
      else none

/-- Exponent of the Rust float grammar: optional sign then `Digit+`. -/
def parseExpPart (cs : List Char) : Option Int :=
  match cs with
  | '+' :: ds => (parseDigits ds).map (fun n => (n : Int))
  | '-' :: ds => (parseDigits ds).map (fun n => -(n : Int))
  | ds => (parseDigits ds).map (fun n => (n : Int))

/-- Number part (mantissa with optional exponent) of the Rust float grammar. -/
def parseDecimal (neg : Bool) (cs : List Char) : Option FloatVal :=
  match cs.findIdx? (fun c => c == 'e' ∨ c == 'E') with
  | none =>
      (parseMantissa cs).map fun q =>
        FloatVal.finite (if neg then -q else q)
  | some i => do
      let q ← parseMantissa (cs.take i)
      let e ← parseExpPart (cs.drop (i + 1))
      pure (FloatVal.finite
        (if neg then -(q * (10 : Rat) ^ e) else q * (10 : Rat) ^ e))

/-- Embedding of `str::parse::<f64>`: optional sign, then a case-insensitive
`inf`/`infinity`/`nan` literal or a decimal number with optional exponent. -/
def rustParseF64 (s : String) : Option FloatVal :=
  let signed : Bool × List Char :=
    match s.toList with
    | '+' :: r => (false, r)
    | '-' :: r => (true, r)
    | r => (false, r)
  let neg := signed.1
  let low := toLowerStr (String.mk signed.2)
  if low = "inf" ∨ low = "infinity" then some (FloatVal.infinite neg)
  else if low = "nan" then some FloatVal.nan
  else parseDecimal neg signed.2

/-- Model of `LingoError` (a.k.a. `QuantumConfigError`), restricted to the
variants the verified code paths can produce; paths are component lists
(see `RPath`). -/
inductive LingoError where
  | fileParse (formatName : String) (path : List String) (sourceError : String)
  | specifiedFileNotFound (path : List String)
  | unsupportedFormat (path : List String)
  | internal (msg : String)
  | securityViolation (msg : String)
  | validationError (msg : String)
deriving DecidableEq, Repr

instance : DecidableEq (Except LingoError Value) := fun a b =>
  match a, b with
  | .ok v, .ok w => decidable_of_iff (v = w) (by simp)
  | .ok _, .error _ => .isFalse (by simp)
  | .error _, .ok _ => .isFalse (by simp)
  | .error e, .error f => decidable_of_iff (e = f) (by simp)

/-- Embedding of `QuantumConfigEnvProvider::parse_env_value`
(src/providers/env_provider.rs): boolean literal sets first (matched
against the lower-cased input), then `i64`, `u64`, `f64` trial parses, else
the verbatim string.  Always `Ok`. -/
def parseEnvValue (value : String) : Except LingoError Value :=
  if toLowerStr value = "true" ∨ toLowerStr value = "1" ∨
      toLowerStr value = "yes" ∨ toLowerStr value = "on" then
    .ok (.bool true)
  else if toLowerStr value = "false" ∨ toLowerStr value = "0" ∨
      toLowerStr value = "no" ∨ toLowerStr value = "off" then
    .ok (.bool false)
  else
    match rustParseI64 value with
    | some i => .ok (.num (.i64 i))
    | none =>
      match rustParseU64 value with
      | some u => .ok (.num (.u64 u))
      | none =>
        match rustParseF64 value with
        | some f => .ok (.num (.f64 f))
        | none => .ok (.string value)

/-- Embedding of `LingoClapProvider::parse_arg_value`
(src/providers/clap_provider.rs); textually the same algorithm as
`parse_env_value`, embedded separately from its own source. -/
def parseArgValue (value : String) : Except LingoError Value :=
  if toLowerStr value = "true" ∨ toLowerStr value = "1" ∨
      toLowerStr value = "yes" ∨ toLowerStr value = "on" then
    .ok (.bool true)
  else if toLowerStr value = "false" ∨ toLowerStr value = "0" ∨
      toLowerStr value = "no" ∨ toLowerStr value = "off" then
    .ok (.bool false)
  else
    match rustParseI64 value with
    | some i => .ok (.num (.i64 i))
    | none =>
      match rustParseU64 value with
      | some u => .ok (.num (.u64 u))
      | none =>
        match rustParseF64 value with
        | some f => .ok (.num (.f64 f))
        | none => .ok (.string value)

/-- The `{true,1,yes,on}` boolean literal set of §4.2, case-insensitively. -/
def isTrueLiteral (s : String) : Bool :=
  toLowerStr s == "true" || toLowerStr s == "1" ||
    toLowerStr s == "yes" || toLowerStr s == "on"

/-- The `{false,0,no,off}` boolean literal set of §4.2, case-insensitively. -/
def isFalseLiteral (s : String) : Bool :=
  toLowerStr s == "false" || toLowerStr s == "0" ||
    toLowerStr s == "no" || toLowerStr s == "off"

/-- Rust `str::split` by a (nonempty) separator pattern, on char lists; the
`fuel` argument is the length of the remaining input (the providers only use
the nonempty separators `"__"` and `"."`). -/
def splitCharsAux (sep : List Char) : Nat → List Char → List (List Char)
  | _, [] => [[]]
  | 0, cs => [cs]
  | fuel + 1, c :: rest =>
      if sep ≠ [] ∧ sep.isPrefixOf (c :: rest) then
        [] :: splitCharsAux sep fuel ((c :: rest).drop sep.length)
      else
        match splitCharsAux sep fuel rest with
        | [] => [[c]]
        | g :: gs => (c :: g) :: gs

/-- Rust `str::split` by a nonempty separator, on strings. -/
def splitStr (sep s : String) : List String :=
  (splitCharsAux sep.toList s.toList.length s.toList).map String.mk

/-- Rust `str::starts_with`, on the char-list view. -/
def strStartsWith (s pre : String) : Bool := pre.toList.isPrefixOf s.toList

/-- Configuration of `QuantumConfigEnvProvider` (the provider struct minus
the process environment, which is passed explicitly as a snapshot). -/
structure EnvProviderCfg where
  pfx : String
  sep : String
  ignoreEmpty : Bool
  lowercaseKeys : Bool

/-- Embeds `QuantumConfigEnvProvider::with_prefix`: separator `"__"`, ignore empty
values, lower-case keys. -/
def envWithPrefix (p : String) : EnvProviderCfg :=
  { pfx := p, sep := "__", ignoreEmpty := true, lowercaseKeys := true }

/-- Embeds `QuantumConfigEnvProvider::validate_env_key`: at most 256 bytes, no
NUL/CR/LF. -/
def validateEnvKey (key : String) : Except LingoError Unit :=
  if key.utf8ByteSize > 256 then
    .error (.validationError
      "Environment variable key too long (max 256 characters)")
  else if key.toList.contains '\x00' ∨ key.toList.contains '\n' ∨
      key.toList.contains '\r' then
    .error (.validationError
      "Environment variable key contains invalid characters")
  else .ok ()

/-- Embeds `QuantumConfigEnvProvider::validate_env_value`: at most 8192 bytes, no
NUL bytes. -/
def validateEnvValue (value : String) : Except LingoError Unit :=
  if value.utf8ByteSize > 8192 then
    .error (.validationError
      "Environment variable value too long (max 8192 characters)")
  else if value.toList.contains '\x00' then
    .error (.validationError
      "Environment variable value contains null bytes")
  else .ok ()

/-- Embeds `QuantumConfigEnvProvider::insert_nested_value`, with the imperative
walk over `parts[..len-1]` rendered as recursion on the parts list: descend
into (or create) intermediate `Dict`s, erroring when an existing non-`Dict`
value blocks the path, and insert the §4.2-coerced value at the last part. -/
def insertNestedEnv (m : VMap) (parts : List String) (value : String) :
    Except LingoError VMap :=
  match parts with
  | [] => .ok m
  | [p] => do
      let parsed ← parseEnvValue value
      .ok (mapInsert m p parsed)
  | p :: rest => do
      let sub ←
        match mapGet m p with
        | none => .ok []
        | some (.dict d) => .ok d
        | some _ =>
            .error (.internal
              ("Environment variable key conflict: '" ++ p ++
                "' cannot be both a value and a nested object"))
      let sub' ← insertNestedEnv sub rest value
      .ok (mapInsert m p (.dict sub'))

/-- One iteration of the `read_env_vars` loop for the variable `e`: the
variable is validated BEFORE the prefix filter is applied; a matching
variable has the prefix stripped, is optionally lower-cased, split on the
separator and inserted. -/
def processEnvVar (cfg : EnvProviderCfg) (m : VMap) (e : String × String) :
    Except LingoError VMap := do
  let _ ← validateEnvKey e.1
  let _ ← validateEnvValue e.2
  if ¬strStartsWith e.1 cfg.pfx then
    .ok m
  else if cfg.ignoreEmpty ∧ e.2.toList.isEmpty then
    .ok m
  else
    let keyWithoutPfx := String.mk (e.1.toList.drop cfg.pfx.toList.length)
    let processedKey :=
      if cfg.lowercaseKeys then toLowerStr keyWithoutPfx
      else keyWithoutPfx
    insertNestedEnv m (splitStr cfg.sep processedKey) e.2

/-- Embeds `QuantumConfigEnvProvider::read_env_vars` over an explicit environment
snapshot (the Rust code collects `env::vars()` into a map and iterates it;
the snapshot list fixes that iteration order). -/
def readEnvVars (cfg : EnvProviderCfg) (env : List (String × String)) :
    Except LingoError VMap :=
  env.foldlM (processEnvVar cfg) []

/-- Path lookup in a `VMap` (used to state where a provider contributed a
value). -/
def lookupPath (m : VMap) : List String → Option Value
  | [] => none
  | [p] => mapGet m p
  | p :: rest =>
      match mapGet m p with
      | some (.dict d) => lookupPath d rest
      | _ => none

/-- Path lookup through a provider result: `none` on provider error. -/
def lookupPathE (r : Except LingoError VMap) (parts : List String) :
    Option Value :=
  match r with
  | .ok m => lookupPath m parts
  | .error _ => none

/-- Data attached to one argument id in a clap `ArgMatches`: either a
boolean (`SetTrue`) flag with its resolved value, or a string-valued
argument with the list of values supplied.  Only argument ids actually
present in the matches (`ArgMatches::ids()`) are listed. -/
inductive ArgData where
  | flag (set : Bool)
  | strs (vals : List String)
deriving DecidableEq, Repr

/-- Model of clap `ArgMatches` as seen through `ids()`/`get_flag`/
`get_many::<String>`: the ids present, each with its data. -/
abbrev ArgMatchesM := List (String × ArgData)

/-- Configuration of `LingoClapProvider` (the struct minus the matches). -/
structure ClapProviderCfg where
  argMapping : List (String × String)
  sep : String

/-- Embeds `LingoClapProvider::from_matches`: empty mapping, separator `"."`. -/
def clapDefaultCfg : ClapProviderCfg := { argMapping := [], sep := "." }

/-- Embeds `with_common_mappings` (src/providers/clap_provider.rs). -/
def commonMappingsCfg : ClapProviderCfg :=
  { argMapping :=
      [("config", "config_file"), ("config-dir", "config_dir"),
       ("log-level", "logging.level"), ("verbose", "logging.verbose"),
       ("quiet", "logging.quiet"), ("output", "output.file"),
       ("format", "output.format")],
    sep := "." }

/-- Lookup in the argument-name mapping (`HashMap::get`). -/
def mappingGet (m : List (String × String)) (k : String) : Option String :=
  (m.find? (fun e => e.1 == k)).map Prod.snd

/-- The nested-key walk shared by `LingoClapProvider::insert_nested_value`
and `insert_nested_value_direct`: descend into (or create) intermediate
`Dict`s along `parts`, erroring when a non-`Dict` value blocks the path,
and insert `v` at the last part. -/
def clapInsertAt (m : VMap) (parts : List String) (v : Value) :
    Except LingoError VMap :=
  match parts with
  | [] => .ok m
  | [p] => .ok (mapInsert m p v)
  | p :: rest => do
      let sub ←
        match mapGet m p with
        | none => .ok []
        | some (.dict d) => .ok d
        | some _ =>
            .error (.internal
              ("Command line argument key conflict: '" ++ p ++
                "' cannot be both a value and a nested object"))
      let sub' ← clapInsertAt sub rest v
      .ok (mapInsert m p (.dict sub'))

/-- Embeds `LingoClapProvider::insert_nested_value`: one value becomes a coerced
leaf, several become an `Array` of coerced leaves, then the nested walk. -/
def clapInsertValues (cfg : ClapProviderCfg) (m : VMap) (key : String)
    (values : List String) : Except LingoError VMap := do
  let parts := splitStr cfg.sep key
  if parts.isEmpty then .ok m
  else do
    let figmentValue ←
      match values with
      | [v] => parseArgValue v
      | vs => do
          let parsed ← vs.mapM parseArgValue
          .ok (Value.array parsed)
    clapInsertAt m parts figmentValue

/-- Embeds `LingoClapProvider::insert_nested_value_direct`. -/
def clapInsertDirect (cfg : ClapProviderCfg) (m : VMap) (key : String)
    (v : Value) : Except LingoError VMap :=
  let parts := splitStr cfg.sep key
  if parts.isEmpty then .ok m
  else clapInsertAt m parts v

/-- One iteration of the `read_clap_args` loop for the argument id `e.1`
carrying `e.2`.  For a string-valued argument `get_arg_values` yields its
values; for a flag it yields `None` (clap's `get_many::<String>` panic is
caught) and `get_flag` decides: a set flag inserts `Bool(true)`, an unset
one (a `SetTrue` default) contributes nothing. -/
def processClapArg (cfg : ClapProviderCfg) (m : VMap) (e : String × ArgData) :
    Except LingoError VMap :=
  let configKey := (mappingGet cfg.argMapping e.1).getD e.1
  match e.2 with
  | .strs values => clapInsertValues cfg m configKey values
  | .flag b =>
      if b then clapInsertDirect cfg m configKey (.bool true) else .ok m

/-- Embeds `LingoClapProvider::read_clap_args`: fold the loop body over the ids
present in the matches. -/
def readClapArgs (cfg : ClapProviderCfg) (ms : ArgMatchesM) :
    Except LingoError VMap :=
  ms.foldlM (processClapArg cfg) []

/-- Model of `serde_json::Number` as consumed by the converter's
`as_i64`/`as_u64`/`as_f64` cascade; `big` stands for an arbitrary-precision
number outside all three ranges (the final `n.to_string()` fallback). -/
inductive JNumber where
  | i64 (i : Int)
  | u64 (n : Nat)
  | f64 (f : FloatVal)
  | big (s : String)
deriving DecidableEq, Repr

/-- Model of `serde_json::Value` (also the target of the TOML deserializer,
which the code drives into `JsonValue` as well). -/
inductive JsonValue where
  | null
  | bool (b : Bool)
  | num (n : JNumber)
  | str (s : String)
  | arr (items : List JsonValue)
  | obj (entries : List (String × JsonValue))
deriving Repr

/-- Embeds `PathBuf` display used in the depth-limit message. -/
def rpathDisplay (p : List String) : String := String.intercalate "/" p

/-- The depth-limit `Internal` error message of the converter. -/
def depthLimitMsg (maxd : Nat) (path : List String) : String :=
  "Configuration parsing depth limit (" ++ toString maxd ++
    ") exceeded in file: " ++ rpathDisplay path

mutual

/-- Embedding of `LingoFileProviderGeneric::convert_json_value_recursive`
(src/providers/file_provider.rs): fail with the depth-limit `Internal`
error as soon as `depth` exceeds `maxd`, otherwise convert leaf-for-leaf,
descending into arrays and objects at `depth + 1`. -/
def convertJsonValueRecursive (maxd : Nat) (path : List String) :
    JsonValue → Nat → Except LingoError Value
  | v, depth =>
    if depth > maxd then
      .error (.internal (depthLimitMsg maxd path))
    else
      match v with
      | .null => .ok (.string "null")
      | .bool b => .ok (.bool b)
      | .num (.i64 i) => .ok (.num (.i64 i))
      | .num (.u64 u) => .ok (.num (.u64 u))
      | .num (.f64 f) => .ok (.num (.f64 f))
      | .num (.big s) => .ok (.string s)
      | .str s => .ok (.string s)
      | .arr items =>
          (convertJsonList maxd path items (depth + 1)).map Value.array
      | .obj entries =>
          (convertJsonEntries maxd path entries (depth + 1) []).map Value.dict

/-- The `for item in arr` loop of the converter. -/
def convertJsonList (maxd : Nat) (path : List String) :
    List JsonValue → Nat → Except LingoError (List Value)
  | [], _ => .ok []
  | x :: xs, depth => do
      let v ← convertJsonValueRecursive maxd path x depth
      let rest ← convertJsonList maxd path xs depth
      .ok (v :: rest)

/-- The `for (key, value) in obj` loop of the converter. -/
def convertJsonEntries (maxd : Nat) (path : List String) :
    List (String × JsonValue) → Nat → VMap → Except LingoError VMap
  | [], _, acc => .ok acc
  | (k, x) :: xs, depth, acc => do
      let v ← convertJsonValueRecursive maxd path x depth
      convertJsonEntries maxd path xs depth (mapInsert acc k v)

end

/-- Embeds `FileFormat` (src/providers/file_provider.rs). -/
inductive FileFormat where
  | toml
  | json
  | ini
deriving DecidableEq, Repr

/-- Model of a `FileReader` observed at the provider's path: the result of
`exists` and of `read_content`. -/
structure FileReaderM where
  fileExists : Bool
  content : Except LingoError String

/-- Model of the external deserializers (`toml`, `serde_json`, `rust-ini`
crates): text to parse tree, or a parser message. -/
structure ExternalParsers where
  tomlDe : String → Except String JsonValue
  jsonDe : String → Except String JsonValue
  iniDe : String → Except String (List (Option String × List (String × String)))

/-- Embeds `LingoFileProviderGeneric` fields (minus the reader, passed separately). -/
structure FileProviderM where
  path : List String
  format : FileFormat
  isRequired : Bool
  maxParseDepth : Nat

/-- The section loop of `LingoFileProviderGeneric::parse_ini`: every section
(`None` becomes `"default"`) maps to one `Dict` whose entries are the
section's properties as verbatim `String` leaves. -/
def parseIniSections
    (sections : List (Option String × List (String × String))) : Value :=
  Value.dict
    (sections.foldl
      (fun rootMap s =>
        let sectionName := s.1.getD "default"
        let sectionMap :=
          s.2.foldl (fun m kv => mapInsert m kv.1 (.string kv.2)) []
        mapInsert rootMap sectionName (.dict sectionMap))
      [])

/-- Embeds `parse_content`: dispatch on the declared format; TOML/JSON results go
through the depth-tracked converter, INI through the section loop. -/
def parseContentM (ext : ExternalParsers) (p : FileProviderM)
    (content : String) : Except LingoError Value :=
  match p.format with
  | .toml =>
      match ext.tomlDe content with
      | .error e => .error (.fileParse "TOML" p.path e)
      | .ok jv => convertJsonValueRecursive p.maxParseDepth p.path jv 0
  | .json =>
      match ext.jsonDe content with
      | .error e => .error (.fileParse "JSON" p.path e)
      | .ok jv => convertJsonValueRecursive p.maxParseDepth p.path jv 0
  | .ini =>
      match ext.iniDe content with
      | .error e => .error (.fileParse "INI" p.path e)
      | .ok sections => .ok (parseIniSections sections)

/-- Embeds `LingoFileProviderGeneric::read_and_parse`: a missing file is a
`SpecifiedFileNotFound` error when required and an empty `Dict` when
optional; an existing file is read and parsed. -/
def readAndParse (ext : ExternalParsers) (reader : FileReaderM)
    (p : FileProviderM) : Except LingoError Value :=
  if ¬reader.fileExists then
    if p.isRequired then .error (.specifiedFileNotFound p.path)
    else .ok (.dict [])
  else do
    let content ← reader.content
    parseContentM ext p content

/-- Embeds `ConfigFileType` (src/paths.rs). -/
inductive ConfigFileType where
  | toml
  | json
  | ini
deriving DecidableEq, Repr

/-- Embeds `ConfigFileType::from_extension`: case-insensitive extension match. -/
def ConfigFileType.fromExtension (ext : String) : Option ConfigFileType :=
  match toLowerStr ext with
  | "toml" => some .toml
  | "json" => some .json
  | "ini" => some .ini
  | _ => none

/-- A `PathBuf`, modelled as its component list (`".."` is a parent-dir
component). -/
abbrev RPath := List String

/-- Rust `Path::extension` on the file-name component: the part after the
last dot, none when there is no dot or the only dot is the leading one of a
hidden file. -/
def extOfFileName (n : String) : Option String :=
  match splitStr "." n with
  | [] => none
  | [_] => none
  | ["", _] => none
  | parts => parts.getLast?

/-- Embeds `Path::extension` of a path model. -/
def pathExtension (p : RPath) : Option String :=
  p.getLast?.bind extOfFileName

/-- Whether a path contains a parent-directory traversal component. -/
def pathContainsTraversal (p : RPath) : Bool := p.contains ".."

/-- Embeds `ConfigFilePath` (src/paths.rs). -/
structure ConfigFilePath where
  path : RPath
  fileType : ConfigFileType
  isRequired : Bool
deriving DecidableEq, Repr

/-- The filesystem as observed by `paths.rs`: `Path::exists` and
`Path::is_file` oracles. -/
structure FileSystem where
  pathExists : RPath → Bool
  pathIsFile : RPath → Bool

/-- Embedding of `add_specified_config_file` (src/paths.rs): check
existence, then regular-file-ness, then infer the format from the
extension; push the candidate (required) only after all three checks.  The
returned list models the `&mut Vec` argument after the call. -/
def addSpecifiedConfigFile (fs : FileSystem) (configFiles : List ConfigFilePath)
    (filePath : RPath) : List ConfigFilePath × Except LingoError Unit :=
  if ¬fs.pathExists filePath then
    (configFiles, .error (.specifiedFileNotFound filePath))
  else if ¬fs.pathIsFile filePath then
    (configFiles, .error (.specifiedFileNotFound filePath))
  else
    match (pathExtension filePath).bind ConfigFileType.fromExtension with
    | none => (configFiles, .error (.unsupportedFormat filePath))
    | some ft =>
        (configFiles ++ [⟨filePath, ft, true⟩], .ok ())

/-- The merge engine's error: a structural `Dict`-versus-leaf disagreement
at a key. -/
inductive MergeError where
  | keyConflict (key : String)
deriving DecidableEq, Repr

mutual

/-- Modelled from the spec: the recursive `Dict` merge of §4.8 (the merge
fold itself is delegated to the external `figment` crate; the repository
only contains the `fig.merge` fold in lingo-derive/src/lib.rs).  Merge one
incoming value into what the existing tree `m₁` holds at key `k`: nothing
there → take the incoming value; both `Dict` → recursive merge; `Dict`
against leaf (either way) → `KeyConflict`; both leaves → the incoming value
replaces the existing one wholesale (arrays included). -/
def mergeOne (m₁ : VMap) (k : String) : Value → Except MergeError Value
  | .dict d₂ =>
      match mapGet m₁ k with
      | none => .ok (.dict d₂)
      | some (.dict d₁) => (mergeDicts d₁ d₂).map Value.dict
      | some _ => .error (.keyConflict k)
  | v =>
      match mapGet m₁ k with
      | none => .ok v
      | some (.dict _) => .error (.keyConflict k)
      | some _ => .ok v

/-- Modelled from the spec (§4.8): fold every key of the incoming tree into
the existing tree (union of keys, incoming wins per `mergeOne`). -/
def mergeDicts (m₁ : VMap) : List (String × Value) → Except MergeError VMap
  | [] => .ok m₁
  | (k, v) :: rest => do
      let merged ← mergeOne m₁ k v
      mergeDicts (mapInsert m₁ k merged) rest

end

/-- Modelled from the spec: folding the providers' `Dict`-rooted trees in
ascending priority order (§4.8), starting from an empty tree. -/
def mergeTrees (trees : List VMap) : Except MergeError VMap :=
  trees.foldlM mergeDicts []

/-- Whether a `Value` is a `Dict` node. -/
def Value.isDict : Value → Bool
  | .dict _ => true
  | _ => false

/-- A JSON document nested `n` object levels deep
(`{"nested": {"nested": ... "value" ...}}`), the §8 depth test vector. -/
def deepJson : Nat → JsonValue
  | 0 => .str "value"
  | n + 1 => .obj [("nested", deepJson n)]

/-- The converted form of `deepJson`. -/
def deepValue : Nat → Value
  | 0 => .string "value"
  | n + 1 => .dict [("nested", deepValue n)]

/-- External parsers that reject everything; used where the parsing step is
unreachable. -/
def failingParsers : ExternalParsers :=
  { tomlDe := fun _ => .error "unreachable",
    jsonDe := fun _ => .error "unreachable",
    iniDe := fun _ => .error "unreachable" }

/-- A reader whose file is absent. -/
def absentReader : FileReaderM :=
  { fileExists := false, content := .error (.internal "unreachable") }

/-- A 300-byte environment variable name (longer than the 256-byte key
limit) that does not start with the prefix `"APP_"`. -/
def longEnvKey : String := String.mk (List.replicate 300 'X')

theorem parseEnvValue_isOk (s : String) : (parseEnvValue s).isOk = true := by
  unfold parseEnvValue
  split_ifs
  · rfl
  · rfl
  · rcases h1 : rustParseI64 s with _ | i <;> simp only [h1]
    · rcases h2 : rustParseU64 s with _ | u <;> simp only [h2]
      · rcases h3 : rustParseF64 s with _ | f <;> simp only [h3] <;> rfl
      · rfl
    · rfl

/-- C9: the environment provider's value parser and the CLI provider's
value parser agree on every input string, and both are total (never return
an error). -/
theorem c9_parsers_equal_total (s : String) :
    parseEnvValue s = parseArgValue s ∧ (parseEnvValue s).isOk = true :=
  ⟨rfl, parseEnvValue_isOk s⟩

/-- C1: evaluation of `add_specified_config_file` at traversal paths.  The
function performs no security validation at all: a traversal path that does
not exist fails with `SpecifiedFileNotFound` (so the existence check did
run and decided the outcome), and a traversal path that does exist and has
a supported extension is accepted and appended — `SecurityViolation` is
never produced, contradicting the claim (and the repository's own
`security_tests.rs::test_config_file_path_security`). -/
theorem c1_traversal_not_rejected_eval :
    pathContainsTraversal ["..", "..", "etc", "passwd"] = true ∧
    addSpecifiedConfigFile ⟨fun _ => false, fun _ => false⟩ []
        ["..", "..", "etc", "passwd"] =
      ([], .error (.specifiedFileNotFound ["..", "..", "etc", "passwd"])) ∧
    pathContainsTraversal ["..", "..", "etc", "evil.toml"] = true ∧
    addSpecifiedConfigFile ⟨fun _ => true, fun _ => true⟩ []
        ["..", "..", "etc", "evil.toml"] =
      ([⟨["..", "..", "etc", "evil.toml"], ConfigFileType.toml, true⟩],
        .ok ()) :=
  ⟨rfl, rfl, rfl, rfl⟩

/-- C10: `add_specified_config_file` is atomic: it either appends exactly
one required candidate (when the path exists, is a regular file, and its
extension maps to a supported format) or fails leaving the candidate list
unchanged. -/
theorem c10_add_specified_atomic (fs : FileSystem)
    (files : List ConfigFilePath) (p : RPath) :
    (∃ ft, (pathExtension p).bind ConfigFileType.fromExtension = some ft ∧
      fs.pathExists p = true ∧ fs.pathIsFile p = true ∧
      addSpecifiedConfigFile fs files p =
        (files ++ [⟨p, ft, true⟩], .ok ())) ∨
    (∃ e, addSpecifiedConfigFile fs files p = (files, .error e)) := by
  unfold addSpecifiedConfigFile
  by_cases h1 : fs.pathExists p = true
  · by_cases h2 : fs.pathIsFile p = true
    · rcases h3 : (pathExtension p).bind ConfigFileType.fromExtension
        with _ | ft
      · exact Or.inr ⟨.unsupportedFormat p, by simp [h1, h2]⟩
      · exact Or.inl ⟨ft, rfl, h1, h2, by simp [h1, h2]⟩
    · exact Or.inr ⟨.specifiedFileNotFound p, by simp [h1, h2]⟩
  · exact Or.inr ⟨.specifiedFileNotFound p, by simp [h1]⟩

/-- C8: a `File Provider` whose file does not exist yields an empty `Dict`
when optional and `SpecifiedFileNotFound` when required — for every reader
and every parser stack, no other outcome is possible. -/
theorem c8_missing_file (ext : ExternalParsers) (reader : FileReaderM)
    (p : FileProviderM) (h : reader.fileExists = false) :
    readAndParse ext reader p =
      if p.isRequired then .error (.specifiedFileNotFound p.path)
      else .ok (.dict []) := by
  unfold readAndParse
  simp [h]

theorem c8_missing_file_witness :
    readAndParse failingParsers absentReader
        ⟨["app.toml"], .toml, true, 128⟩ =
      .error (.specifiedFileNotFound ["app.toml"]) := by
  have h := c8_missing_file failingParsers absentReader
    ⟨["app.toml"], .toml, true, 128⟩ rfl
  simpa using h

/-- C5 counterexample: the INI parser puts section-less keys under a
synthetic `"default"` section — the root of the resulting tree does not
contain the key — and keeps `"42"` as a `String` leaf in named sections
too, although §4.2 coercion of `"42"` yields an `Int`. -/
theorem c5_ini_counterexample :
    parseIniSections [(Option.none, [("k", "42")])] =
      .dict [("default", .dict [("k", .string "42")])] ∧
    mapGet [("default", .dict [("k", .string "42")])] "k" = none ∧
    parseIniSections [(some "s", [("k", "42")])] =
      .dict [("s", .dict [("k", .string "42")])] ∧
    parseEnvValue "42" = .ok (.num (.i64 42)) :=
  ⟨rfl, rfl, rfl, rfl⟩

/-- C5 amended: INI parsing maps each section to exactly one level of
`Dict` nesting, places section-less keys under a `"default"` section, and
keeps every INI leaf value as an uncoerced `String`. -/
theorem c5_ini_section_mapping (sect : Option String) (k v : String) :
    parseIniSections [(sect, [(k, v)])] =
      .dict [(sect.getD "default", .dict [(k, .string v)])] := by
  cases sect <;> rfl

/-- C2 (merge engine modelled from §4.8, the fold itself living in the
external figment crate): folding trees in ascending priority order merges
`Dict`-with-`Dict` recursively, replaces any other existing value
wholesale, and fails with `KeyConflict` whenever a `Dict` meets a non-`Dict`
leaf at the same path; in particular the three §8 merge examples hold. -/
theorem c2_merge_semantics :
    (mergeTrees [[("a", .num (.i64 1))], [("a", .num (.i64 2))]] =
      .ok [("a", .num (.i64 2))]) ∧
    (mergeTrees [[("a", .dict [("x", .num (.i64 1))])],
        [("a", .dict [("y", .num (.i64 2))])]] =
      .ok [("a", .dict [("x", .num (.i64 1)), ("y", .num (.i64 2))])]) ∧
    (mergeTrees [[("a", .num (.i64 1))],
        [("a", .dict [("x", .num (.i64 1))])]] =
      .error (.keyConflict "a")) ∧
    (∀ m k v w, Value.isDict v = false → Value.isDict w = false →
      mapGet m k = some w → mergeOne m k v = .ok v) ∧
    (∀ m k d₁ d₂, mapGet m k = some (.dict d₁) →
      mergeOne m k (.dict d₂) = (mergeDicts d₁ d₂).map Value.dict) ∧
    (∀ m k w d₂, Value.isDict w = false → mapGet m k = some w →
      mergeOne m k (.dict d₂) = .error (.keyConflict k)) ∧
    (∀ m k v d₁, Value.isDict v = false → mapGet m k = some (.dict d₁) →
      mergeOne m k v = .error (.keyConflict k)) := by
  refine ⟨rfl, rfl, rfl, ?_, ?_, ?_, ?_⟩
  · intro m k v w hv hw hm
    cases v <;> simp [Value.isDict] at hv <;>
      cases w <;> simp [Value.isDict] at hw <;> simp [mergeOne, hm]
  · intro m k d₁ d₂ hm
    simp [mergeOne, hm]
  · intro m k w d₂ hw hm
    cases w <;> simp [Value.isDict] at hw <;> simp [mergeOne, hm]
  · intro m k v d₁ hv hm
    cases v <;> simp [Value.isDict] at hv <;> simp [mergeOne, hm]

theorem c2_merge_semantics_witness :
    mergeOne [("a", .num (.i64 1))] "a" (.num (.i64 2)) =
      .ok (.num (.i64 2)) :=
  c2_merge_semantics.2.2.2.1 [("a", .num (.i64 1))] "a"
    (.num (.i64 2)) (.num (.i64 1)) rfl rfl rfl

theorem exceptBindOk {α β γ : Type} (a : α) (f : α → Except γ β) :
    (Except.ok a >>= f) = f a := rfl

theorem exceptBindErr {α β γ : Type} (e : γ) (f : α → Except γ β) :
    ((Except.error e : Except γ α) >>= f) = .error e := rfl

theorem exceptMapOk {α β γ : Type} (f : α → β) (a : α) :
    Except.map f (.ok a : Except γ α) = .ok (f a) := rfl

theorem exceptMapErr {α β γ : Type} (f : α → β) (e : γ) :
    Except.map f (.error e : Except γ α) = .error e := rfl

theorem isTrueLiteral_false (s : String) (h : isTrueLiteral s = false) :
    ¬(toLowerStr s = "true" ∨ toLowerStr s = "1" ∨
      toLowerStr s = "yes" ∨ toLowerStr s = "on") := by
  simp only [isTrueLiteral, Bool.or_eq_false_iff, beq_eq_false_iff_ne,
    ne_eq] at h
  tauto

theorem isFalseLiteral_false (s : String) (h : isFalseLiteral s = false) :
    ¬(toLowerStr s = "false" ∨ toLowerStr s = "0" ∨
      toLowerStr s = "no" ∨ toLowerStr s = "off") := by
  simp only [isFalseLiteral, Bool.or_eq_false_iff, beq_eq_false_iff_ne,
    ne_eq] at h
  tauto

/-- C3: type coercion applies in strict first-match-wins order: boolean
literal sets (case-insensitively), then the `i64`, `u64` and `f64` parses,
then the verbatim string; in particular `"42"` coerces to an `Int`,
`"3.14"` to a `Float`, `"0"`/`"1"` to booleans, and a non-numeric string to
itself. -/
theorem c3_coercion_order (s : String) :
    (isTrueLiteral s = true → parseEnvValue s = .ok (.bool true)) ∧
    (isFalseLiteral s = true → parseEnvValue s = .ok (.bool false)) ∧
    (∀ i, isTrueLiteral s = false → isFalseLiteral s = false →
      rustParseI64 s = some i → parseEnvValue s = .ok (.num (.i64 i))) ∧
    (∀ u, isTrueLiteral s = false → isFalseLiteral s = false →
      rustParseI64 s = none → rustParseU64 s = some u →
      parseEnvValue s = .ok (.num (.u64 u))) ∧
    (∀ f, isTrueLiteral s = false → isFalseLiteral s = false →
      rustParseI64 s = none → rustParseU64 s = none →
      rustParseF64 s = some f → parseEnvValue s = .ok (.num (.f64 f))) ∧
    (isTrueLiteral s = false → isFalseLiteral s = false →
      rustParseI64 s = none → rustParseU64 s = none →
      rustParseF64 s = none → parseEnvValue s = .ok (.string s)) ∧
    parseEnvValue "42" = .ok (.num (.i64 42)) ∧
    parseEnvValue "0" = .ok (.bool false) ∧
    parseEnvValue "1" = .ok (.bool true) ∧
    (∃ q, parseEnvValue "3.14" = .ok (.num (.f64 (.finite q)))) ∧
    parseEnvValue "hello" = .ok (.string "hello") := by
  refine ⟨?_, ?_, ?_, ?_, ?_, ?_, rfl, rfl, rfl, ⟨_, rfl⟩, rfl⟩
  · intro h
    simp only [isTrueLiteral, Bool.or_eq_true, beq_iff_eq] at h
    unfold parseEnvValue
    rw [if_pos (by tauto)]
  · intro h
    have hb : isTrueLiteral s = false := by
      simp only [isFalseLiteral, Bool.or_eq_true, beq_iff_eq] at h
      simp only [isTrueLiteral]
      rcases h with ((h | h) | h) | h <;> rw [h] <;> decide
    simp only [isFalseLiteral, Bool.or_eq_true, beq_iff_eq] at h
    unfold parseEnvValue
    rw [if_neg (isTrueLiteral_false s hb), if_pos (by tauto)]
  · intro i hT hF hI
    unfold parseEnvValue
    rw [if_neg (isTrueLiteral_false s hT), if_neg (isFalseLiteral_false s hF),
      hI]
  · intro u hT hF hI hU
    unfold parseEnvValue
    rw [if_neg (isTrueLiteral_false s hT), if_neg (isFalseLiteral_false s hF),
      hI, hU]
  · intro f hT hF hI hU hFl
    unfold parseEnvValue
    rw [if_neg (isTrueLiteral_false s hT), if_neg (isFalseLiteral_false s hF),
      hI, hU, hFl]
  · intro hT hF hI hU hFl
    unfold parseEnvValue
    rw [if_neg (isTrueLiteral_false s hT), if_neg (isFalseLiteral_false s hF),
      hI, hU, hFl]

theorem c3_coercion_order_witness :
    parseEnvValue "42" = .ok (.num (.i64 42)) :=
  (c3_coercion_order "42").2.2.1 42 rfl rfl rfl

theorem convert_deepJson_ok (maxd : Nat) (path : List String) :
    ∀ n d, d + n ≤ maxd →
      convertJsonValueRecursive maxd path (deepJson n) d =
        .ok (deepValue n) := by
  intro n
  induction n with
  | zero =>
      intro d h
      unfold deepJson deepValue convertJsonValueRecursive
      rw [if_neg (by omega)]
  | succ n ih =>
      intro d h
      have hnested := ih (d + 1) (by omega)
      unfold deepJson deepValue convertJsonValueRecursive
      rw [if_neg (by omega)]
      simp [convertJsonEntries, hnested, mapInsert, mapContains,
        exceptBindOk, exceptMapOk]

theorem convert_deepJson_err (maxd : Nat) (path : List String) :
    ∀ n d, d ≤ maxd → maxd < d + n →
      convertJsonValueRecursive maxd path (deepJson n) d =
        .error (.internal (depthLimitMsg maxd path)) := by
  intro n
  induction n with
  | zero => intro d h1 h2; omega
  | succ n ih =>
      intro d h1 h2
      have hnested : convertJsonValueRecursive maxd path (deepJson n) (d + 1) =
          .error (.internal (depthLimitMsg maxd path)) := by
        by_cases hd : d + 1 > maxd
        · unfold convertJsonValueRecursive
          rw [if_pos hd]
        · exact ih (d + 1) (by omega) (by omega)
      unfold deepJson convertJsonValueRecursive
      rw [if_neg (by omega)]
      simp [convertJsonEntries, hnested, exceptBindErr, exceptMapErr]

/-- C4: the File Provider's recursive converter tracks a depth counter and
returns the typed depth-limit `Internal` error (it is a total function, so
no crash is possible) once nesting exceeds `max_parse_depth`: the 200-deep
JSON document converts successfully for every `max_parse_depth ≥ 200` and
fails with the depth-limit error for every smaller bound, including 32. -/
theorem c4_depth_limit :
    (∀ maxd, 200 ≤ maxd →
      convertJsonValueRecursive maxd ["deep.json"] (deepJson 200) 0 =
        .ok (deepValue 200)) ∧
    (∀ maxd, maxd < 200 →
      convertJsonValueRecursive maxd ["deep.json"] (deepJson 200) 0 =
        .error (.internal (depthLimitMsg maxd ["deep.json"]))) :=
  ⟨fun maxd h => convert_deepJson_ok maxd ["deep.json"] 200 0 (by omega),
   fun maxd h =>
     convert_deepJson_err maxd ["deep.json"] 200 0 (by omega) (by omega)⟩

theorem c4_depth_limit_witness :
    convertJsonValueRecursive 200 ["deep.json"] (deepJson 200) 0 =
      .ok (deepValue 200) ∧
    convertJsonValueRecursive 32 ["deep.json"] (deepJson 200) 0 =
      .error (.internal (depthLimitMsg 32 ["deep.json"])) :=
  ⟨c4_depth_limit.1 200 (by decide), c4_depth_limit.2 32 (by decide)⟩

/-- C6 counterexample: an environment variable with an unrelated prefix is
not without effect — a 300-byte variable name that does not start with the
configured prefix `"APP_"` fails the whole read with `ValidationError`,
while the same read without it succeeds. -/
theorem c6_unrelated_var_fails_read :
    strStartsWith longEnvKey "APP_" = false ∧
    readEnvVars (envWithPrefix "APP_") [] = .ok [] ∧
    readEnvVars (envWithPrefix "APP_") [(longEnvKey, "v")] =
      .error (.validationError
        "Environment variable key too long (max 256 characters)") :=
  ⟨rfl, rfl, rfl⟩

theorem mapGet_nil (k : String) : mapGet [] k = none := rfl

theorem processEnvVar_skip (cfg : EnvProviderCfg) (m : VMap) (k v : String)
    (hk : strStartsWith k cfg.pfx = false)
    (h1 : validateEnvKey k = .ok ()) (h2 : validateEnvValue v = .ok ()) :
    processEnvVar cfg m (k, v) = .ok m := by
  unfold processEnvVar
  simp only [h1, h2, exceptBindOk]
  rw [if_pos (by simp [hk])]

/-- C6 amended: a variable `APP_A__B__C=v` (with a valid, nonempty value)
contributes the §4.2-coerced value of `v` at path `a.b.c`, and a variable
whose name does not start with the prefix contributes nothing to the tree —
provided it passes the key/value validation that `read_env_vars` applies to
EVERY variable before the prefix filter (an unrelated variable failing
validation aborts the whole read, see the counterexample). -/
theorem c6_env_contribution :
    (∀ v pv, v.utf8ByteSize ≤ 8192 → '\x00' ∉ v.toList →
      v.toList ≠ [] → parseEnvValue v = .ok pv →
      readEnvVars (envWithPrefix "APP_") [("APP_A__B__C", v)] =
        .ok [("a", .dict [("b", .dict [("c", pv)])])]) ∧
    (∀ cfg env₁ env₂ k v, strStartsWith k cfg.pfx = false →
      validateEnvKey k = .ok () → validateEnvValue v = .ok () →
      readEnvVars cfg (env₁ ++ (k, v) :: env₂) =
        readEnvVars cfg (env₁ ++ env₂)) := by
  constructor
  · intro v pv h1 h2 h3 h4
    have h2d : '\x00' ∉ v.data := h2
    have h3d : v.data ≠ [] := h3
    have hval : validateEnvValue v = .ok () := by
      unfold validateEnvValue
      rw [if_neg (by omega), if_neg (by simp [h2d])]
    have hstep : processEnvVar (envWithPrefix "APP_") []
        ("APP_A__B__C", v) = .ok [("a", .dict [("b", .dict [("c", pv)])])] := by
      unfold processEnvVar
      simp only [hval, exceptBindOk]
      rw [show validateEnvKey "APP_A__B__C" = .ok () from rfl, exceptBindOk]
      rw [if_neg (by decide), if_neg (by simp [envWithPrefix, h3d])]
      show insertNestedEnv [] ["a", "b", "c"] v = _
      simp [insertNestedEnv, h4, mapGet_nil, mapInsert, mapContains,
        exceptBindOk]
    simp [readEnvVars, List.foldlM_cons, List.foldlM_nil, hstep, exceptBindOk]
  · intro cfg env₁ env₂ k v hk h1 h2
    unfold readEnvVars
    rw [List.foldlM_append, List.foldlM_append]
    rcases hF : List.foldlM (processEnvVar cfg) [] env₁ with e | m
    · rfl
    · show (List.foldlM (processEnvVar cfg) m ((k, v) :: env₂)) =
        List.foldlM (processEnvVar cfg) m env₂
      rw [List.foldlM_cons, processEnvVar_skip cfg m k v hk h1 h2,
        exceptBindOk]

theorem c6_env_contribution_witness :
    readEnvVars (envWithPrefix "APP_") [("APP_A__B__C", "7")] =
      .ok [("a", .dict [("b", .dict [("c", .num (.i64 7))])])] :=
  c6_env_contribution.1 "7" (.num (.i64 7)) (by decide) (by decide)
    (by decide) rfl

theorem splitCharsAux_ne_nil (sep : List Char) :
    ∀ fuel cs, splitCharsAux sep fuel cs ≠ [] := by
  intro fuel cs
  match fuel, cs with
  | _, [] => simp [splitCharsAux]
  | 0, c :: rest => simp [splitCharsAux]
  | fuel + 1, c :: rest =>
      unfold splitCharsAux
      split
      · simp
      · split <;> simp

theorem splitStr_ne_nil (sep s : String) : splitStr sep s ≠ [] := by
  simp [splitStr, splitCharsAux_ne_nil]

theorem clapInsertAt_empty (parts : List String) :
    ∀ v, parts ≠ [] →
      ∃ m, clapInsertAt [] parts v = .ok m ∧ lookupPath m parts = some v := by
  induction parts with
  | nil => intro v h; exact absurd rfl h
  | cons p rest ih =>
      intro v _
      cases rest with
      | nil =>
          refine ⟨[(p, v)], ?_, ?_⟩
          · simp [clapInsertAt, mapInsert, mapContains]
          · simp [lookupPath, mapGet]
      | cons q rest' =>
          obtain ⟨m', hm', hl⟩ := ih v (by simp)
          refine ⟨[(p, .dict m')], ?_, ?_⟩
          · simp [clapInsertAt, mapGet, hm', mapInsert, mapContains,
              exceptBindOk]
          · simp [lookupPath, mapGet, hl]

/-- C7: per-argument contributions of the CLI provider: a supplied boolean
flag contributes `Bool(true)` at its mapped path; an absent flag (a
`SetTrue` default, `get_flag` false) contributes nothing; one supplied
string value contributes the §4.2-coerced leaf; several values contribute
an `Array` of coerced leaves; and an argument registered but not supplied
never appears in `ArgMatches::ids()`, so the read of an empty match set
contributes nothing. -/
theorem c7_clap_contributions :
    (∀ cfg m name, processClapArg cfg m (name, .flag false) = .ok m) ∧
    (∀ cfg name,
      (processClapArg cfg [] (name, .flag true)).isOk = true ∧
      lookupPathE (processClapArg cfg [] (name, .flag true))
        (splitStr cfg.sep ((mappingGet cfg.argMapping name).getD name)) =
        some (.bool true)) ∧
    (∀ cfg name v pv, parseArgValue v = .ok pv →
      (processClapArg cfg [] (name, .strs [v])).isOk = true ∧
      lookupPathE (processClapArg cfg [] (name, .strs [v]))
        (splitStr cfg.sep ((mappingGet cfg.argMapping name).getD name)) =
        some pv) ∧
    (∀ cfg name vs pvs, vs.length ≠ 1 → vs.mapM parseArgValue = .ok pvs →
      (processClapArg cfg [] (name, .strs vs)).isOk = true ∧
      lookupPathE (processClapArg cfg [] (name, .strs vs))
        (splitStr cfg.sep ((mappingGet cfg.argMapping name).getD name)) =
        some (.array pvs)) ∧
    (∀ cfg, readClapArgs cfg [] = .ok []) := by
  refine ⟨?_, ?_, ?_, ?_, fun cfg => rfl⟩
  · intro cfg m name
    simp [processClapArg]
  · intro cfg name
    obtain ⟨m, hm, hl⟩ := clapInsertAt_empty
      (splitStr cfg.sep ((mappingGet cfg.argMapping name).getD name))
      (.bool true)
      (splitStr_ne_nil cfg.sep ((mappingGet cfg.argMapping name).getD name))
    have hp : processClapArg cfg [] (name, .flag true) = .ok m := by
      simp only [processClapArg, clapInsertDirect, if_true]
      rw [if_neg (by simp [splitStr_ne_nil])]
      exact hm
    rw [hp]
    exact ⟨rfl, hl⟩
  · intro cfg name v pv hv
    obtain ⟨m, hm, hl⟩ := clapInsertAt_empty
      (splitStr cfg.sep ((mappingGet cfg.argMapping name).getD name)) pv
      (splitStr_ne_nil cfg.sep ((mappingGet cfg.argMapping name).getD name))
    have hp : processClapArg cfg [] (name, .strs [v]) = .ok m := by
      simp only [processClapArg, clapInsertValues]
      rw [if_neg (by simp [splitStr_ne_nil])]
      simp only [hv, exceptBindOk]
      exact hm
    rw [hp]
    exact ⟨rfl, hl⟩
  · intro cfg name vs pvs hlen hvs
    obtain ⟨m, hm, hl⟩ := clapInsertAt_empty
      (splitStr cfg.sep ((mappingGet cfg.argMapping name).getD name))
      (.array pvs)
      (splitStr_ne_nil cfg.sep ((mappingGet cfg.argMapping name).getD name))
    have hp : processClapArg cfg [] (name, .strs vs) = .ok m := by
      simp only [processClapArg, clapInsertValues]
      rw [if_neg (by simp [splitStr_ne_nil])]
      match vs, hlen with
      | [], _ =>
          simp only [List.mapM_nil] at hvs
          cases hvs
          simp only [exceptBindOk]
          exact hm
      | [x], h => exact absurd rfl h
      | x :: y :: tl, _ =>
          simp only [hvs, exceptBindOk]
          exact hm
    rw [hp]
    exact ⟨rfl, hl⟩

theorem c7_clap_contributions_witness :
    ((processClapArg commonMappingsCfg [] ("verbose", .flag true)).isOk =
        true ∧
      lookupPathE (processClapArg commonMappingsCfg [] ("verbose", .flag true))
        (splitStr commonMappingsCfg.sep
          ((mappingGet commonMappingsCfg.argMapping "verbose").getD
            "verbose")) = some (.bool true)) ∧
    ((processClapArg commonMappingsCfg []
        ("log-level", .strs ["debug"])).isOk = true ∧
      lookupPathE
        (processClapArg commonMappingsCfg [] ("log-level", .strs ["debug"]))
        (splitStr commonMappingsCfg.sep
          ((mappingGet commonMappingsCfg.argMapping "log-level").getD
            "log-level")) = some (.string "debug")) ∧
    ((processClapArg commonMappingsCfg []
        ("values", .strs ["1", "x"])).isOk = true ∧
      lookupPathE
        (processClapArg commonMappingsCfg [] ("values", .strs ["1", "x"]))
        (splitStr commonMappingsCfg.sep
          ((mappingGet commonMappingsCfg.argMapping "values").getD
            "values")) = some (.array [.bool true, .string "x"])) :=
  ⟨c7_clap_contributions.2.1 commonMappingsCfg "verbose",
   c7_clap_contributions.2.2.1 commonMappingsCfg "log-level" "debug"
     (.string "debug") rfl,
   c7_clap_contributions.2.2.2.1 commonMappingsCfg "values" ["1", "x"]
     [.bool true, .string "x"] (by decide) rfl⟩

end Lingo
